import Mathlib

set_option maxRecDepth 4000

/-!
Shallow embedding of the `analyze-keyword-density` edge function of the
seoptimiz repository (source file `src/unnamed/part_000`).

The function normalizes fetched HTML into visible text with a chain of
regex replacements, tokenizes it with `split(/\s+/)`, counts the
frequency of tokens longer than 3 characters, and returns the top 20
tokens by count together with density percentages.

Modelling conventions:
* strings are Lean `String`s; the scanning loops work on `List Char`
  (`String.data`) and use a fuel argument equal to the input length so
  that every definition is structural and kernel-reducible;
* JavaScript numbers are modelled as exact rationals (`ℚ`); the source
  computes `(count / totalWords) * 100` on IEEE doubles, which the
  claims never distinguish from exact arithmetic;
* `String.prototype.toLowerCase` is modelled on ASCII letters
  (`Char.toLower`); every claim only involves ASCII documents;
* the JavaScript object `wordFrequency` is modelled as an association
  list in key insertion order, and `Array.prototype.sort` (stable per
  ES2019) by a stable insertion sort with the comparator
  `(a, b) => b.count - a.count`;
* the asynchronous `fetch` is modelled by passing its outcome to the
  handler as an explicit argument.
-/

/-- The character class `\s` of JavaScript regular expressions
(whitespace and line terminators); also the set trimmed by
`String.prototype.trim`. -/
def jsWhitespaceChars : List Char :=
  [' ', '\t', '\n', '\r', '\x0b', '\x0c', '\u00A0', '\u1680',
   '\u2000', '\u2001', '\u2002', '\u2003', '\u2004', '\u2005', '\u2006',
   '\u2007', '\u2008', '\u2009', '\u200A',
   '\u2028', '\u2029', '\u202F', '\u205F', '\u3000', '\uFEFF']

/-- Whether a character matches `\s`. -/
def isJsWS (c : Char) : Bool :=
  jsWhitespaceChars.contains c

/-- Case-insensitive matching of a literal pattern (given in lowercase)
against an initial segment of the input, as the `i` flag does on ASCII. -/
def startsWithCI : List Char → List Char → Bool
  | [], _ => true
  | _ :: _, [] => false
  | p :: ps, c :: cs => (c.toLower = p) && startsWithCI ps cs

/-- Scan for the first case-insensitive occurrence of `pat` and return
the remainder of the input after it; models the lazy `[\s\S]*?` stretch
up to the closing tag of the style/script block regexes. -/
def findCloseCI (pat : List Char) : List Char → Option (List Char)
  | [] => none
  | c :: cs =>
    if startsWithCI pat (c :: cs) then some ((c :: cs).drop pat.length)
    else findCloseCI pat cs

/-- Match the opening-tag part `<name[^>]*>` (case-insensitive) at the
start of the input; on success return the remainder after the `>`. -/
def tryOpenTag (name : List Char) (l : List Char) : Option (List Char) :=
  if startsWithCI ('<' :: name) l then
    match (l.drop (name.length + 1)).dropWhile (fun c => c ≠ '>') with
    | '>' :: rest => some rest
    | _ => none
  else none

/-- Match a whole block `<name[^>]*>[\s\S]*?</name>` (case-insensitive)
at the start of the input; on success return the remainder after the
closing tag. -/
def tryBlock (name : List Char) (l : List Char) : Option (List Char) :=
  match tryOpenTag name l with
  | some rest => findCloseCI ('<' :: '/' :: (name ++ ['>'])) rest
  | none => none

/-- One global replacement pass
`.replace(/<name[^>]*>[\s\S]*?<\/name>/gi, '')`: leftmost matches are
deleted and scanning resumes after each match.  The fuel argument is
the length of the input, which every step strictly decreases. -/
def removeBlocksFuel (name : List Char) : Nat → List Char → List Char
  | 0, l => l
  | _ + 1, [] => []
  | fuel + 1, c :: cs =>
    match tryBlock name (c :: cs) with
    | some rest => removeBlocksFuel name fuel rest
    | none => c :: removeBlocksFuel name fuel cs

/-- Global deletion of `<name...>...</name>` blocks. -/
def removeBlocks (name : List Char) (l : List Char) : List Char :=
  removeBlocksFuel name l.length l

/-- Match `[^>]+>` at the start of the input (the part of the tag regex
after the opening `<`); on success return the remainder after `>`. -/
def tryTag (l : List Char) : Option (List Char) :=
  match l.dropWhile (fun c => c ≠ '>') with
  | '>' :: rest => if l.takeWhile (fun c => c ≠ '>') = [] then none else some rest
  | _ => none

/-- One global replacement pass `.replace(/<[^>]+>/g, ' ')`: every
remaining tag becomes a single space. -/
def stripTagsFuel : Nat → List Char → List Char
  | 0, l => l
  | _ + 1, [] => []
  | fuel + 1, c :: cs =>
    if c = '<' then
      match tryTag cs with
      | some rest => ' ' :: stripTagsFuel fuel rest
      | none => c :: stripTagsFuel fuel cs
    else c :: stripTagsFuel fuel cs

/-- Global replacement of tags `<[^>]+>` by single spaces. -/
def stripTags (l : List Char) : List Char := stripTagsFuel l.length l

/-- Worker for `.replace(/\s+/g, ' ')`: the flag records whether the
previous character was whitespace (in which case the run has already
produced its single space). -/
def collapseWSGo : Bool → List Char → List Char
  | _, [] => []
  | prevWS, c :: cs =>
    if isJsWS c then
      if prevWS then collapseWSGo true cs
      else ' ' :: collapseWSGo true cs
    else c :: collapseWSGo false cs

/-- Global replacement of whitespace runs by single spaces. -/
def collapseWS (l : List Char) : List Char := collapseWSGo false l

/-- Model of `String.prototype.trim`: drop whitespace from both ends. -/
def trimL (l : List Char) : List Char :=
  ((l.dropWhile isJsWS).reverse.dropWhile isJsWS).reverse

/-- Model of `String.prototype.toLowerCase` on ASCII letters. -/
def lowerL (l : List Char) : List Char := l.map Char.toLower

/-- The normalization chain of lines 35-41 of the source, on character
lists: remove style blocks, remove script blocks, replace tags by
spaces, collapse whitespace, trim, lowercase — in that order. -/
def visibleTextL (html : List Char) : List Char :=
  lowerL (trimL (collapseWS (stripTags
    (removeBlocks ['s', 'c', 'r', 'i', 'p', 't']
      (removeBlocks ['s', 't', 'y', 'l', 'e'] html)))))

/-- The `visibleText` string of the source. -/
def visibleText (html : String) : String := String.mk (visibleTextL html.data)

/-- Worker for `split(/\s+/)`.  `acc` holds the (reversed) current
segment; `inWS` records that the previous character belonged to a
whitespace run whose split point has already been emitted.  Faithful to
JavaScript `String.prototype.split`: the empty string yields `[""]`,
and leading/trailing whitespace yields empty segments. -/
def splitWSGo : List Char → Bool → List Char → List (List Char)
  | acc, _, [] => [acc.reverse]
  | acc, inWS, c :: cs =>
    if isJsWS c then
      if inWS then splitWSGo [] true cs
      else acc.reverse :: splitWSGo [] true cs
    else splitWSGo (c :: acc) false cs

/-- Model of `s.split(/\s+/)` on character lists. -/
def splitWS (l : List Char) : List (List Char) := splitWSGo [] false l

/-- Line 43 of the source: `const words = visibleText.split(/\s+/)`. -/
def wordsOf (html : String) : List String :=
  (splitWS (visibleText html).data).map String.mk

/-- One entry of the returned `keywordDensity` array. -/
structure KeywordDensity where
  keyword : String
  count : Nat
  density : ℚ
deriving DecidableEq, Repr

/-- The JSON payload of a successful analysis. -/
structure AnalysisResult where
  keywordDensity : List KeywordDensity
  totalWords : Nat
deriving DecidableEq, Repr

/-- Increment the count of `w` in the association list, appending a new
binding with count 1 when `w` is absent: the update
`wordFrequency[word] = (wordFrequency[word] || 0) + 1` on a JavaScript
object in key insertion order. -/
def bumpFreq (w : String) : List (String × Nat) → List (String × Nat)
  | [] => [(w, 1)]
  | (k, n) :: rest =>
    if k = w then (k, n + 1) :: rest else (k, n) :: bumpFreq w rest

/-- Lines 47-52 of the source: fold over `words`, counting only words
with `word.length > 3`.  (For keys that look like array indices,
`Object.entries` would move them to the front; no claim depends on the
order of entries with equal counts, so insertion order is used for all
keys.) -/
def wordFrequency : List String → List (String × Nat) → List (String × Nat)
  | [], acc => acc
  | w :: ws, acc =>
    wordFrequency ws (if 3 < w.length then bumpFreq w acc else acc)

/-- The comparator `(a, b) => b.count - a.count`: `a` sorts no later
than `b` exactly when `b.count ≤ a.count`. -/
def countDescOrder (a b : KeywordDensity) : Prop := b.count ≤ a.count

instance : DecidableRel countDescOrder := fun a b => Nat.decLe b.count a.count

instance : IsTotal KeywordDensity countDescOrder :=
  ⟨fun a b => Nat.le_total b.count a.count⟩

instance : IsTrans KeywordDensity countDescOrder :=
  ⟨fun _ _ _ hab hbc => Nat.le_trans hbc hab⟩

/-- Lines 43-61 of the source: tokenize the visible text, count words
longer than 3 characters, attach densities `(count / totalWords) * 100`,
sort by count descending (stably) and keep the first 20 entries. -/
def analyze (html : String) : AnalysisResult :=
  let words := wordsOf html
  let totalWords := words.length
  let freq := wordFrequency words []
  let entries := freq.map fun p =>
    KeywordDensity.mk p.1 p.2 (((p.2 : ℚ) / (totalWords : ℚ)) * 100)
  ⟨(List.insertionSort countDescOrder entries).take 20, totalWords⟩

/-- Modelled from the spec: the file `supabase/functions/_shared/cors.ts`
is not part of the sources; the spec only requires "permissive
cross-origin headers", given here as the usual permissive pair. -/
def corsHeaders : List (String × String) :=
  [("Access-Control-Allow-Origin", "*"),
   ("Access-Control-Allow-Headers", "authorization, x-client-info, apikey, content-type")]

/-- Headers of every JSON response of the handler:
`{...corsHeaders, 'Content-Type': 'application/json'}`. -/
def jsonHeaders : List (String × String) :=
  corsHeaders ++ [("Content-Type", "application/json")]

/-- Hexadecimal digit (lowercase) for `\uXXXX` escapes. -/
def hexDigit (n : Nat) : Char :=
  if n < 10 then Char.ofNat (48 + n) else Char.ofNat (87 + n)

/-- JSON string escaping of one character, as `JSON.stringify` does. -/
def jsonEscapeChar (c : Char) : List Char :=
  if c = '"' then ['\\', '"']
  else if c = '\\' then ['\\', '\\']
  else if c = '\x08' then ['\\', 'b']
  else if c = '\t' then ['\\', 't']
  else if c = '\n' then ['\\', 'n']
  else if c = '\x0c' then ['\\', 'f']
  else if c = '\r' then ['\\', 'r']
  else if c.toNat < 32 then
    ['\\', 'u', '0', '0', hexDigit (c.toNat / 16), hexDigit (c.toNat % 16)]
  else [c]

/-- Serialization of a string value by `JSON.stringify`, quotes included. -/
def jsonString (s : String) : String :=
  String.mk ('"' :: (s.data.map jsonEscapeChar).flatten ++ ['"'])

/-- Serialization `JSON.stringify({ error: msg })`, the body built in the catch
branch (lines 81-92 of the source). -/
def errorBodyString (msg : String) : String :=
  "\x7b\"error\":" ++ jsonString msg ++ "\x7d"

/-- The body of a `Response`: the bare `'ok'` string of the OPTIONS
branch, the serialized error object, or the analysis payload (whose
number serialization is kept structural). -/
inductive Body where
  | raw (s : String)
  | jsonError (s : String)
  | jsonResult (r : AnalysisResult)
deriving DecidableEq, Repr

/-- An HTTP response as the handler builds it. -/
structure HttpResponse where
  status : Nat
  headers : List (String × String)
  body : Body
deriving DecidableEq, Repr

/-- The outcome of `await fetch(url)`: either the transport rejects
with an error message, or a response arrives with its `ok` flag,
`statusText` and text body. -/
inductive FetchOutcome where
  | failure (msg : String)
  | success (ok : Bool) (statusText : String) (body : String)
deriving DecidableEq, Repr

/-- The uniform catch branch: HTTP 500 with `{"error": msg}`. -/
def errResponse (msg : String) : HttpResponse :=
  ⟨500, jsonHeaders, Body.jsonError (errorBodyString msg)⟩

/-- The request handler passed to `serve` (lines 10-94 of the source).
The request is given by its method and the `url` field of its parsed
JSON body (`none` models an absent field, which is falsy like `''`);
the outcome of the one `fetch` call is passed explicitly. -/
def handleRequest (method : String) (url : Option String)
    (fetched : FetchOutcome) : HttpResponse :=
  if method = "OPTIONS" then ⟨200, corsHeaders, Body.raw "ok"⟩
  else
    match url with
    | none => errResponse "URL is required"
    | some u =>
      if u = "" then errResponse "URL is required"
      else
        match fetched with
        | FetchOutcome.failure msg => errResponse msg
        | FetchOutcome.success ok statusText body =>
          if !ok then errResponse ("Failed to fetch URL: " ++ statusText)
          else ⟨200, jsonHeaders, Body.jsonResult (analyze body)⟩

/-- The spec side of claim C2, from the glossary: a token is a maximal
run of non-whitespace characters; this counts them.  The flag records
whether the scanner is inside such a run. -/
def countTokensGo : Bool → List Char → Nat
  | _, [] => 0
  | inTok, c :: cs =>
    if isJsWS c then countTokensGo false cs
    else if inTok then countTokensGo true cs
    else 1 + countTokensGo true cs

/-- Number of whitespace-delimited tokens of a character list. -/
def countTokens (l : List Char) : Nat := countTokensGo false l

/-- Whether a list starts with whitespace (vacuously true for `[]`). -/
def firstWS : List Char → Bool
  | [] => true
  | c :: _ => isJsWS c

/-- Whether a list ends with whitespace (false for `[]`). -/
def lastWS : List Char → Bool
  | [] => false
  | [c] => isJsWS c
  | _ :: c :: cs => lastWS (c :: cs)

/-- Total of all counts of the frequency table. -/
def sumCounts (l : List (String × Nat)) : Nat := (l.map (fun q => q.2)).sum

/-- Step 1 of the normalization: `.replace(/<style[^>]*>[\s\S]*?<\/style>/gi, '')`. -/
def removeStyleBlocks (s : String) : String :=
  String.mk (removeBlocks ['s', 't', 'y', 'l', 'e'] s.data)

/-- Step 2 of the normalization: `.replace(/<script[^>]*>[\s\S]*?<\/script>/gi, '')`. -/
def removeScriptBlocks (s : String) : String :=
  String.mk (removeBlocks ['s', 'c', 'r', 'i', 'p', 't'] s.data)

/-- Step 3 of the normalization: `.replace(/<[^>]+>/g, ' ')`. -/
def replaceTagsWithSpace (s : String) : String := String.mk (stripTags s.data)

/-- Step 4 of the normalization: `.replace(/\s+/g, ' ')`. -/
def collapseWhitespace (s : String) : String := String.mk (collapseWS s.data)

/-- Step 5 of the normalization: `.trim()`. -/
def trimString (s : String) : String := String.mk (trimL s.data)

/-- Step 6 of the normalization: `.toLowerCase()`. -/
def lowercaseString (s : String) : String := String.mk (lowerL s.data)

/-- The concrete document of the round-trip expectation in the spec. -/
def sampleDoc : String :=
  "<script>ignored</script><style>ignored</style><p>Hello hello WORLD</p>"

/-- Every split state yields at least one segment, as JavaScript
`split` never returns an empty array. -/
theorem splitWSGo_length_pos : ∀ (l acc : List Char) (inWS : Bool),
    1 ≤ (splitWSGo acc inWS l).length
  | [], _, _ => by simp [splitWSGo]
  | c :: cs, acc, inWS => by
    by_cases hc : isJsWS c
    · by_cases hw : inWS
      · simpa [splitWSGo, hc, hw] using splitWSGo_length_pos cs [] true
      · simp [splitWSGo, hc, hw]
    · simpa [splitWSGo, hc] using splitWSGo_length_pos cs (c :: acc) false

theorem splitWSGo_cons (acc : List Char) (inWS : Bool) (c : Char) (cs : List Char) :
    splitWSGo acc inWS (c :: cs) =
      if isJsWS c then
        (if inWS then splitWSGo [] true cs else acc.reverse :: splitWSGo [] true cs)
      else splitWSGo (c :: acc) false cs := rfl

theorem countTokensGo_cons (inTok : Bool) (c : Char) (cs : List Char) :
    countTokensGo inTok (c :: cs) =
      if isJsWS c then countTokensGo false cs
      else if inTok then countTokensGo true cs else 1 + countTokensGo true cs := rfl

theorem splitWSGo_false_cons (acc : List Char) (c : Char) (cs : List Char) :
    splitWSGo acc false (c :: cs) =
      if isJsWS c then acc.reverse :: splitWSGo [] true cs
      else splitWSGo (c :: acc) false cs := by
  rw [splitWSGo_cons]; split <;> rfl

theorem splitWSGo_true_cons (c : Char) (cs : List Char) :
    splitWSGo [] true (c :: cs) =
      if isJsWS c then splitWSGo [] true cs else splitWSGo [c] false cs := by
  rw [splitWSGo_cons]; split <;> rfl

theorem countTokensGo_true_cons (c : Char) (cs : List Char) :
    countTokensGo true (c :: cs) =
      if isJsWS c then countTokensGo false cs else countTokensGo true cs := by
  rw [countTokensGo_cons]; split <;> rfl

theorem countTokensGo_false_cons (c : Char) (cs : List Char) :
    countTokensGo false (c :: cs) =
      if isJsWS c then countTokensGo false cs else 1 + countTokensGo true cs := by
  rw [countTokensGo_cons]; split <;> rfl

theorem lastWS_cons2 (a b : Char) (l : List Char) :
    lastWS (a :: b :: l) = lastWS (b :: l) := rfl

theorem lastWS_append_singleton : ∀ (l : List Char) (c : Char), lastWS (l ++ [c]) = isJsWS c
  | [], _ => rfl
  | [_], _ => rfl
  | _ :: b :: l, c => lastWS_append_singleton (b :: l) c

theorem lastWS_append : ∀ (a b : List Char), b ≠ [] → lastWS (a ++ b) = lastWS b
  | [], _, _ => rfl
  | x :: xs, b, hb => by
    cases h2 : xs ++ b with
    | nil => exact absurd (List.append_eq_nil.mp h2).2 hb
    | cons d ds =>
      show lastWS (x :: (xs ++ b)) = lastWS b
      rw [h2]
      show lastWS (d :: ds) = lastWS b
      rw [← h2, lastWS_append xs b hb]

theorem lastWS_reverse_cons (c : Char) (cs : List Char) :
    lastWS ((c :: cs).reverse) = isJsWS c := by
  rw [List.reverse_cons, lastWS_append_singleton]

theorem firstWS_reverse (l : List Char) (h : l ≠ []) : firstWS l.reverse = lastWS l := by
  obtain ⟨e, es, hrev⟩ : ∃ e es, l.reverse = e :: es := by
    cases hr : l.reverse with
    | nil => exact absurd (by simpa using congrArg List.reverse hr) h
    | cons e es => exact ⟨e, es, rfl⟩
  have h2 := lastWS_reverse_cons e es
  rw [← hrev, List.reverse_reverse] at h2
  rw [hrev, h2]
  rfl

theorem firstWS_dropWhile (l : List Char) :
    l.dropWhile isJsWS = [] ∨ firstWS (l.dropWhile isJsWS) = false := by
  induction l with
  | nil => exact Or.inl rfl
  | cons c cs ih =>
    by_cases hc : isJsWS c
    · rw [List.dropWhile_cons_of_pos hc]; exact ih
    · rw [List.dropWhile_cons_of_neg hc]
      exact Or.inr (by simpa [firstWS] using hc)

theorem lastWS_dropWhile (p : Char → Bool) (l : List Char) (h : l.dropWhile p ≠ []) :
    lastWS (l.dropWhile p) = lastWS l := by
  conv_rhs => rw [← List.takeWhile_append_dropWhile (p := p) (l := l)]
  rw [lastWS_append _ _ h]

/-- Joint characterization of the two scanner states: the number of
segments produced by `splitWSGo` against the number of tokens counted
by `countTokensGo`, with corrections for the final segment and a
trailing whitespace run. -/
theorem splitWSGo_lengths : ∀ l : List Char,
    (∀ acc : List Char, (splitWSGo acc false l).length =
      countTokensGo true l + 1 + (if lastWS l then 1 else 0))
    ∧ ((splitWSGo [] true l).length =
      countTokensGo false l + (if l = [] then 1 else if lastWS l then 1 else 0))
  | [] => by
    constructor <;> simp [splitWSGo, countTokensGo, lastWS]
  | c :: cs => by
    obtain ⟨ihA, ihB⟩ := splitWSGo_lengths cs
    constructor
    · intro acc
      by_cases hc : isJsWS c
      · cases cs with
        | nil => simp [splitWSGo, countTokensGo, lastWS, hc]
        | cons d ds =>
          rw [splitWSGo_false_cons, if_pos hc, List.length_cons, ihB,
            if_neg (List.cons_ne_nil d ds), countTokensGo_true_cons c (d :: ds), if_pos hc,
            lastWS_cons2 c d ds]
          omega
      · cases cs with
        | nil => simp [splitWSGo, countTokensGo, lastWS, hc]
        | cons d ds =>
          rw [splitWSGo_false_cons, if_neg hc, ihA (c :: acc),
            countTokensGo_true_cons c (d :: ds), if_neg hc, lastWS_cons2 c d ds]
    · by_cases hc : isJsWS c
      · cases cs with
        | nil => simp [splitWSGo, countTokensGo, lastWS, hc]
        | cons d ds =>
          rw [splitWSGo_true_cons, if_pos hc, ihB,
            if_neg (List.cons_ne_nil d ds), countTokensGo_false_cons c (d :: ds), if_pos hc,
            if_neg (List.cons_ne_nil c (d :: ds)), lastWS_cons2 c d ds]
      · cases cs with
        | nil => simp [splitWSGo, countTokensGo, lastWS, hc]
        | cons d ds =>
          rw [splitWSGo_true_cons, if_neg hc, ihA [c],
            countTokensGo_false_cons c (d :: ds), if_neg hc,
            if_neg (List.cons_ne_nil c (d :: ds)), lastWS_cons2 c d ds]
          omega

theorem countTokensGo_false_eq (l : List Char) :
    countTokensGo false l = countTokensGo true l + (if firstWS l then 0 else 1) := by
  cases l with
  | nil => simp [countTokensGo, firstWS]
  | cons c cs =>
    by_cases hc : isJsWS c
    · simp [countTokensGo, firstWS, hc]
    · simp [countTokensGo, firstWS, hc]
      omega

/-- On a list with no whitespace at either end, the segments of
`split(/\s+/)` are exactly the whitespace-delimited tokens. -/
theorem splitWS_length_eq_countTokens (l : List Char)
    (h1 : firstWS l = false) (h2 : lastWS l = false) :
    (splitWS l).length = countTokens l := by
  have hA := (splitWSGo_lengths l).1 []
  rw [splitWS, hA, countTokens, countTokensGo_false_eq, h1, h2]
  simp

theorem Char.toNat_ofNat_of_valid {n : Nat} (h : n.isValidChar) :
    (Char.ofNat n).toNat = n := by
  rw [Char.ofNat, dif_pos h]
  simp [Char.ofNatAux, Char.toNat, UInt32.toNat]

/-- No character with a code point in the printable ASCII letter range
is JavaScript whitespace. -/
theorem isJsWS_false_of_range (c : Char) (h1 : 33 ≤ c.toNat) (h2 : c.toNat ≤ 159) :
    isJsWS c = false := by
  cases hws : isJsWS c with
  | false => rfl
  | true =>
    exfalso
    simp only [isJsWS, jsWhitespaceChars, List.contains_cons, List.contains_nil,
      Bool.or_eq_true, beq_iff_eq] at hws
    rcases hws with rfl | rfl | rfl | rfl | rfl | rfl | rfl | rfl | rfl | rfl | rfl | rfl |
      rfl | rfl | rfl | rfl | rfl | rfl | rfl | rfl | rfl | rfl | rfl | rfl | rfl | h
    all_goals first
      | exact absurd h1 (by decide)
      | exact absurd h2 (by decide)
      | exact absurd h (by decide)

/-- Lowercasing never creates or destroys whitespace. -/
theorem isJsWS_toLower (c : Char) : isJsWS c.toLower = isJsWS c := by
  show isJsWS (Char.toLower c) = isJsWS c
  rw [Char.toLower]
  split
  · next h =>
    have hv : (c.toNat + 32).isValidChar := Or.inl (by omega)
    have ht : (Char.ofNat (c.toNat + 32)).toNat = c.toNat + 32 :=
      Char.toNat_ofNat_of_valid hv
    rw [isJsWS_false_of_range _ (by omega) (by omega),
      isJsWS_false_of_range c (by omega) (by omega)]
  · rfl

theorem firstWS_lowerL (l : List Char) : firstWS (lowerL l) = firstWS l := by
  cases l with
  | nil => rfl
  | cons c cs => simp [lowerL, firstWS, isJsWS_toLower]

theorem lastWS_lowerL : ∀ l : List Char, lastWS (lowerL l) = lastWS l
  | [] => rfl
  | [c] => by simp [lowerL, lastWS, isJsWS_toLower]
  | a :: b :: l => by
    show lastWS (a.toLower :: b.toLower :: lowerL l) = _
    rw [lastWS_cons2, lastWS_cons2]
    exact lastWS_lowerL (b :: l)

/-- A nonempty trimmed list has no whitespace at either end. -/
theorem trimL_firstWS (l : List Char) (h : trimL l ≠ []) :
    firstWS (trimL l) = false ∧ lastWS (trimL l) = false := by
  set u := l.dropWhile isJsWS with hu
  set v := u.reverse.dropWhile isJsWS with hv
  have htl : trimL l = v.reverse := rfl
  have hvne : v ≠ [] := by
    intro hveq
    rw [htl, hveq] at h
    exact h rfl
  have hune : u.reverse ≠ [] := by
    intro hueq
    rw [hv, hueq] at hvne
    exact hvne rfl
  constructor
  · rw [htl, firstWS_reverse v hvne, hv, lastWS_dropWhile _ _ (hv ▸ hvne)]
    obtain ⟨f, fs, hcons⟩ : ∃ f fs, u = f :: fs := by
      cases hueq : u with
      | nil => exact absurd (by rw [hueq]; rfl) hune
      | cons f fs => exact ⟨f, fs, rfl⟩
    rw [hcons, lastWS_reverse_cons]
    have := firstWS_dropWhile l
    rw [← hu, hcons] at this
    rcases this with h' | h'
    · exact absurd h' (by simp)
    · simpa [firstWS] using h'
  · rw [htl]
    obtain ⟨e, es, hcons⟩ : ∃ e es, v = e :: es := by
      cases hveq : v with
      | nil => exact absurd hveq hvne
      | cons e es => exact ⟨e, es, rfl⟩
    rw [hcons, lastWS_reverse_cons]
    have := firstWS_dropWhile u.reverse
    rw [← hv, hcons] at this
    rcases this with h' | h'
    · exact absurd h' (by simp)
    · simpa [firstWS] using h'

theorem analyze_totalWords (html : String) :
    (analyze html).totalWords = (splitWS (visibleText html).data).length := by
  simp [analyze, wordsOf]

/-- The returned word total against the token count of the normalized
text: they agree except on the empty normalized text, where JavaScript
`split` yields the singleton `[""]`. -/
theorem analyze_totalWords_eq_countTokens (html : String) :
    (analyze html).totalWords =
      if (visibleText html).data = [] then 1
      else countTokens (visibleText html).data := by
  rw [analyze_totalWords]
  by_cases h : (visibleText html).data = []
  · rw [h, if_pos rfl]
    rfl
  · rw [if_neg h]
    set X := collapseWS (stripTags
      (removeBlocks ['s', 'c', 'r', 'i', 'p', 't']
        (removeBlocks ['s', 't', 'y', 'l', 'e'] html.data))) with hX
    have hdata : (visibleText html).data = lowerL (trimL X) := rfl
    have htne : trimL X ≠ [] := by
      intro he
      apply h
      rw [hdata, he]
      rfl
    obtain ⟨h1, h2⟩ := trimL_firstWS X htne
    have hf : firstWS ((visibleText html).data) = false := by
      rw [hdata, firstWS_lowerL]; exact h1
    have hl : lastWS ((visibleText html).data) = false := by
      rw [hdata, lastWS_lowerL]; exact h2
    exact splitWS_length_eq_countTokens _ hf hl

theorem one_le_analyze_totalWords (html : String) :
    1 ≤ (analyze html).totalWords := by
  rw [analyze_totalWords]
  exact splitWSGo_length_pos _ _ _

/-- Bumping a word of length greater than 3 preserves the table
invariant: all keys longer than 3 characters, all counts at least 1. -/
theorem bumpFreq_mem_inv (w : String) (hw : 3 < w.length) :
    ∀ (l : List (String × Nat)), (∀ q ∈ l, 3 < q.1.length ∧ 1 ≤ q.2) →
      ∀ q ∈ bumpFreq w l, 3 < q.1.length ∧ 1 ≤ q.2 := by
  intro l
  induction l with
  | nil =>
    intro _ q hq
    simp only [bumpFreq, List.mem_singleton] at hq
    rw [hq]
    exact ⟨hw, Nat.le_refl 1⟩
  | cons p rest ih =>
    intro hl q hq
    obtain ⟨k, n⟩ := p
    by_cases hk : k = w
    · rw [bumpFreq, if_pos hk] at hq
      rcases List.mem_cons.mp hq with h | h
      · rw [h]
        exact ⟨(hl (k, n) (List.mem_cons_self _ _)).1, Nat.le_add_left 1 n⟩
      · exact hl q (List.mem_cons_of_mem _ h)
    · rw [bumpFreq, if_neg hk] at hq
      rcases List.mem_cons.mp hq with h | h
      · exact h ▸ hl (k, n) (List.mem_cons_self _ _)
      · exact ih (fun r hr => hl r (List.mem_cons_of_mem _ hr)) q h

theorem wordFrequency_mem_inv : ∀ (ws : List String) (acc : List (String × Nat)),
    (∀ q ∈ acc, 3 < q.1.length ∧ 1 ≤ q.2) →
    ∀ q ∈ wordFrequency ws acc, 3 < q.1.length ∧ 1 ≤ q.2
  | [], _, hacc => by simpa [wordFrequency] using hacc
  | w :: ws, acc, hacc => by
    rw [wordFrequency]
    by_cases hw : 3 < w.length
    · rw [if_pos hw]
      exact wordFrequency_mem_inv ws _ (bumpFreq_mem_inv w hw acc hacc)
    · rw [if_neg hw]
      exact wordFrequency_mem_inv ws acc hacc

theorem sumCounts_bumpFreq (w : String) :
    ∀ l, sumCounts (bumpFreq w l) = sumCounts l + 1
  | [] => by simp [bumpFreq, sumCounts]
  | (k, n) :: rest => by
    by_cases hk : k = w
    · simp only [bumpFreq, if_pos hk, sumCounts, List.map_cons, List.sum_cons]
      omega
    · have := sumCounts_bumpFreq w rest
      simp only [bumpFreq, if_neg hk, sumCounts, List.map_cons, List.sum_cons] at this ⊢
      omega

theorem sumCounts_wordFrequency : ∀ (ws : List String) (acc : List (String × Nat)),
    sumCounts (wordFrequency ws acc) ≤ sumCounts acc + ws.length
  | [], acc => by simp [wordFrequency]
  | w :: ws, acc => by
    rw [wordFrequency]
    by_cases hw : 3 < w.length
    · rw [if_pos hw]
      have h1 := sumCounts_wordFrequency ws (bumpFreq w acc)
      rw [sumCounts_bumpFreq] at h1
      simp only [List.length_cons]
      omega
    · rw [if_neg hw]
      have h1 := sumCounts_wordFrequency ws acc
      simp only [List.length_cons]
      omega

theorem mem_le_sumCounts : ∀ (l : List (String × Nat)) (q : String × Nat), q ∈ l →
    q.2 ≤ sumCounts l
  | [], q, hq => absurd hq (List.not_mem_nil q)
  | p :: rest, q, hq => by
    rcases List.mem_cons.mp hq with h | h
    · rw [h]
      simp only [sumCounts, List.map_cons, List.sum_cons]
      exact Nat.le_add_right _ _
    · have := mem_le_sumCounts rest q h
      simp only [sumCounts, List.map_cons, List.sum_cons] at this ⊢
      omega

/-- No key of the frequency table is counted more often than there are
words. -/
theorem count_le_of_mem_wordFrequency (ws : List String) (q : String × Nat)
    (hq : q ∈ wordFrequency ws []) : q.2 ≤ ws.length := by
  have h1 := mem_le_sumCounts _ q hq
  have h2 := sumCounts_wordFrequency ws []
  have h3 : sumCounts ([] : List (String × Nat)) = 0 := rfl
  omega

/-- Every returned entry arises from a binding of the frequency table
with the density formula of the source attached. -/
theorem mem_keywordDensity (html : String) (e : KeywordDensity)
    (he : e ∈ (analyze html).keywordDensity) :
    ∃ q ∈ wordFrequency (wordsOf html) [],
      e = ⟨q.1, q.2, ((q.2 : ℚ) / (((wordsOf html).length : Nat) : ℚ)) * 100⟩ := by
  simp only [analyze] at he
  have h1 := List.take_subset 20 _ he
  rw [(List.perm_insertionSort countDescOrder _).mem_iff] at h1
  obtain ⟨q, hq, he'⟩ := List.mem_map.mp h1
  exact ⟨q, hq, he'.symm⟩

/-- Evaluation of the analyzer on the spec's concrete document; the
exact densities are 200/3 and 100/3. -/
theorem analyze_sampleDoc :
    analyze sampleDoc =
      ⟨[⟨"hello", 2, 200 / 3⟩, ⟨"world", 1, 100 / 3⟩], 3⟩ := by
  have hw : wordsOf sampleDoc = ["hello", "hello", "world"] := by decide
  have hf : wordFrequency ["hello", "hello", "world"] [] =
      [("hello", 2), ("world", 1)] := by decide
  show AnalysisResult.mk
      ((List.insertionSort countDescOrder
        ((wordFrequency (wordsOf sampleDoc) []).map
          (fun p => KeywordDensity.mk p.1 p.2
            (((p.2 : ℚ) / (((wordsOf sampleDoc).length : Nat) : ℚ)) * 100)))).take 20)
      ((wordsOf sampleDoc).length) = _
  rw [hw, hf]
  norm_num [List.insertionSort, List.orderedInsert, countDescOrder, List.take]

/-- C1: the HTML-normalization step of the analyzer equals, for every
input HTML string, the composition in order of: removing style blocks,
removing script blocks, replacing every remaining tag with a single
space, collapsing whitespace runs, trimming, and lowercasing. -/
theorem claim_C1_normalization (html : String) :
    visibleText html =
      lowercaseString (trimString (collapseWhitespace (replaceTagsWithSpace
        (removeScriptBlocks (removeStyleBlocks html))))) := rfl

/-- C2, counterexample: on the empty document the normalized text has
zero whitespace-delimited tokens, yet `totalWords` is 1, because
JavaScript `split` on the empty string returns `[""]`. -/
theorem claim_C2_counterexample :
    (analyze "").totalWords ≠ countTokens (visibleText "").data := by decide

/-- C2, amended: `totalWords` equals the number of whitespace-delimited
tokens of the normalized visible text whenever that text is nonempty;
on the empty normalized text it equals 1. -/
theorem claim_C2_totalWords (html : String) :
    (analyze html).totalWords =
      if (visibleText html).data = [] then 1
      else countTokens (visibleText html).data :=
  analyze_totalWords_eq_countTokens html

/-- C3: every entry of the returned `keywordDensity` has a keyword
longer than 3 characters, a count of at least 1, and a density in the
interval from 0 to 100. -/
theorem claim_C3_entry_invariants (html : String) (e : KeywordDensity)
    (he : e ∈ (analyze html).keywordDensity) :
    3 < e.keyword.length ∧ 1 ≤ e.count ∧ 0 ≤ e.density ∧ e.density ≤ 100 := by
  obtain ⟨q, hq, rfl⟩ := mem_keywordDensity html e he
  have hP := wordFrequency_mem_inv (wordsOf html) []
    (by intro q hq; exact absurd hq (List.not_mem_nil q)) q hq
  have hc := count_le_of_mem_wordFrequency _ q hq
  have hT : 1 ≤ (wordsOf html).length := by
    have := splitWSGo_length_pos (visibleText html).data [] false
    simpa [wordsOf] using this
  have hTpos : (0 : ℚ) < (((wordsOf html).length : Nat) : ℚ) := by
    exact_mod_cast Nat.lt_of_lt_of_le Nat.zero_lt_one hT
  refine ⟨hP.1, hP.2, ?_, ?_⟩
  · exact mul_nonneg (div_nonneg (Nat.cast_nonneg _) (Nat.cast_nonneg _)) (by norm_num)
  · have hdiv : ((q.2 : ℚ) / (((wordsOf html).length : Nat) : ℚ)) ≤ 1 :=
      (div_le_one hTpos).mpr (by exact_mod_cast hc)
    calc ((q.2 : ℚ) / (((wordsOf html).length : Nat) : ℚ)) * 100
        ≤ 1 * 100 := mul_le_mul_of_nonneg_right hdiv (by norm_num)
      _ = 100 := one_mul 100

/-- C3, witness: the invariants instantiated at the entry for "hello"
of the sample document. -/
theorem claim_C3_witness :
    3 < ("hello" : String).length ∧ 1 ≤ 2 ∧ (0 : ℚ) ≤ 200 / 3 ∧ (200 : ℚ) / 3 ≤ 100 :=
  claim_C3_entry_invariants sampleDoc ⟨"hello", 2, 200 / 3⟩
    (by rw [analyze_sampleDoc]; exact List.mem_cons_self _ _)

/-- C4: the returned `keywordDensity` sequence has at most 20 entries
and is sorted by count descending: any earlier entry has a count at
least that of any later entry. -/
theorem claim_C4_sorted_top20 (html : String) :
    (analyze html).keywordDensity.length ≤ 20 ∧
      (analyze html).keywordDensity.Pairwise (fun a b => b.count ≤ a.count) := by
  constructor
  · simp only [analyze]
    exact List.length_take_le _ _
  · simp only [analyze]
    exact (List.sorted_insertionSort countDescOrder _).sublist (List.take_sublist _ _)

/-- C5, counterexample: on the empty document `totalWords` is 1, not 0
as the claim states. -/
theorem claim_C5_counterexample : (analyze "").totalWords ≠ 0 := by decide

/-- C5, amended: on the empty document the analyzer deterministically
returns `totalWords = 1` and an empty `keywordDensity`; because
`totalWords` is 1, the density division never divides by zero even
without an explicit guard. -/
theorem claim_C5_empty_document :
    analyze "" = ⟨[], 1⟩ := by decide

/-- C6, counterexample: the analyzer's entry for "hello" on the spec's
document has density 200/3 = 66.666..., so no entry with density
exactly 66.67 is returned. -/
theorem claim_C6_counterexample :
    KeywordDensity.mk "hello" 2 (6667 / 100) ∉ (analyze sampleDoc).keywordDensity := by
  rw [analyze_sampleDoc]
  intro h
  rcases List.mem_cons.mp h with h' | h'
  · have := congrArg KeywordDensity.density h'
    norm_num at this
  · rcases List.mem_cons.mp h' with h'' | h''
    · have := congrArg KeywordDensity.keyword h''
      simp at this
    · exact absurd h'' (List.not_mem_nil _)

/-- C6, amended: on the spec's document the analyzer returns
`totalWords = 3` and entries hello with count 2 and density 200/3
(66.67 when rounded to two decimals) and world with count 1 and
density 100/3. -/
theorem claim_C6_result :
    analyze sampleDoc =
      ⟨[⟨"hello", 2, 200 / 3⟩, ⟨"world", 1, 100 / 3⟩], 3⟩ :=
  analyze_sampleDoc

/-- C7: when the `url` field of the request body is missing or the
empty string, a non-OPTIONS request is answered with HTTP 500 and JSON
body containing the error message "URL is required". -/
theorem claim_C7_url_required (method : String) (u : Option String) (f : FetchOutcome)
    (hm : method ≠ "OPTIONS") (hu : u = none ∨ u = some "") :
    handleRequest method u f =
      ⟨500, jsonHeaders, Body.jsonError "\x7b\"error\":\"URL is required\"\x7d"⟩ := by
  rcases hu with rfl | rfl
  · rw [handleRequest.eq_def, if_neg hm]
    show errResponse "URL is required" = _
    decide
  · rw [handleRequest.eq_def, if_neg hm]
    show errResponse "URL is required" = _
    decide

/-- C7, witness: a POST request with a missing url. -/
theorem claim_C7_witness :
    handleRequest "POST" none (FetchOutcome.failure "boom") =
      ⟨500, jsonHeaders, Body.jsonError "\x7b\"error\":\"URL is required\"\x7d"⟩ :=
  claim_C7_url_required "POST" none (FetchOutcome.failure "boom") (by decide) (Or.inl rfl)

/-- C8: when the fetch returns a non-success status, the handler
answers HTTP 500 with a JSON error whose message contains the upstream
status text; when the transport fails, it answers HTTP 500 with the
transport error's message. -/
theorem claim_C8_fetch_error (method u statusText body msg : String)
    (hm : method ≠ "OPTIONS") (hu : u ≠ "") :
    (handleRequest method (some u) (FetchOutcome.success false statusText body) =
        ⟨500, jsonHeaders,
          Body.jsonError (errorBodyString ("Failed to fetch URL: " ++ statusText))⟩
      ∧ ∃ pre post : List Char,
          ("Failed to fetch URL: " ++ statusText).data = pre ++ statusText.data ++ post)
    ∧ handleRequest method (some u) (FetchOutcome.failure msg) =
        ⟨500, jsonHeaders, Body.jsonError (errorBodyString msg)⟩ := by
  refine ⟨⟨?_, ⟨"Failed to fetch URL: ".data, [], by simp⟩⟩, ?_⟩
  · rw [handleRequest.eq_def, if_neg hm]
    show (if u = "" then _ else _) = _
    rw [if_neg hu]
    rfl
  · rw [handleRequest.eq_def, if_neg hm]
    show (if u = "" then _ else _) = _
    rw [if_neg hu]
    rfl

/-- C8, witness: a POST request whose fetch comes back 404 "Not Found",
and one whose transport fails. -/
theorem claim_C8_witness :
    (handleRequest "POST" (some "https://example.com")
        (FetchOutcome.success false "Not Found" "") =
        ⟨500, jsonHeaders,
          Body.jsonError (errorBodyString ("Failed to fetch URL: " ++ "Not Found"))⟩
      ∧ ∃ pre post : List Char,
          ("Failed to fetch URL: " ++ "Not Found").data =
            pre ++ ("Not Found" : String).data ++ post)
    ∧ handleRequest "POST" (some "https://example.com") (FetchOutcome.failure "network down") =
        ⟨500, jsonHeaders, Body.jsonError (errorBodyString "network down")⟩ :=
  claim_C8_fetch_error "POST" "https://example.com" "Not Found" "" "network down"
    (by decide) (by decide)

/-- C9, counterexample: the OPTIONS branch answers with the body "ok",
not with an empty body as the claim states. -/
theorem claim_C9_counterexample :
    (handleRequest "OPTIONS" none (FetchOutcome.failure "x")).body = Body.raw "ok" ∧
      Body.raw "ok" ≠ Body.raw "" := by decide

/-- C9, amended: every OPTIONS request is answered with HTTP 200, the
permissive cross-origin headers, and the body "ok". -/
theorem claim_C9_options (u : Option String) (f : FetchOutcome) :
    handleRequest "OPTIONS" u f = ⟨200, corsHeaders, Body.raw "ok"⟩ := by
  rw [handleRequest.eq_def, if_pos rfl]

/-- C10: splitting the normalized text on whitespace always yields at
least one element, so `totalWords` is at least 1 and the density
division `(count / totalWords) * 100` never divides by zero, even
though the code has no explicit guard. -/
theorem claim_C10_split_never_empty (html : String) :
    1 ≤ (splitWS (visibleText html).data).length ∧
      1 ≤ (analyze html).totalWords ∧ (analyze html).totalWords ≠ 0 := by
  refine ⟨splitWSGo_length_pos _ _ _, one_le_analyze_totalWords html, ?_⟩
  have := one_le_analyze_totalWords html
  omega
